import Mathlib

/-!
Shallow embedding of the beneat-sol conditional-order engine
(ghost-bridge and ghost-crank Anchor programs) and proofs about it.

Machine integers are modelled as `Nat` (unsigned) and `Int` (signed)
with explicit width bounds where overflow or encoding matters.
On-chain 32-byte public keys, hashes and byte buffers are `List Nat`
(one entry per byte).  The external cryptographic hash functions
(blake3 in ghost-bridge, sha256 in ghost-crank) are third-party
black boxes, so handlers that call them are parametrized by a
function `h : List Nat → List Nat`.
-/

set_option maxRecDepth 8000

deriving instance DecidableEq for Except

namespace GhostSol

/-- Little-endian encoding of a natural number into `w` bytes, mirroring
Rust's `to_le_bytes` on unsigned fixed-width integers (the value is reduced
modulo `256 ^ w`, which is the identity for in-range values). -/
def natToLeBytes : Nat → Nat → List Nat
  | 0, _ => []
  | w + 1, n => n % 256 :: natToLeBytes w (n / 256)

/-- Little-endian decoding of a byte list back into a natural number,
mirroring Rust's `from_le_bytes`. -/
def leBytesToNat : List Nat → Nat
  | [] => 0
  | b :: bs => b + 256 * leBytesToNat bs

/-- Two's-complement little-endian encoding of a signed 64-bit value,
mirroring Rust's `i64::to_le_bytes`. -/
def int64ToLeBytes (v : Int) : List Nat :=
  natToLeBytes 8 (v % (2 ^ 64)).toNat

/-- Decoding of 8 little-endian bytes into a signed 64-bit value,
mirroring Rust's `i64::from_le_bytes`. -/
def leBytesToInt64 (bs : List Nat) : Int :=
  let n := leBytesToNat bs
  if n < 2 ^ 63 then (n : Int) else (n : Int) - 2 ^ 64

theorem natToLeBytes_length (w n : Nat) : (natToLeBytes w n).length = w := by
  induction w generalizing n with
  | zero => simp [natToLeBytes]
  | succ w ih => simp [natToLeBytes, ih]

theorem leBytesToNat_natToLeBytes (w n : Nat) :
    leBytesToNat (natToLeBytes w n) = n % 256 ^ w := by
  induction w generalizing n with
  | zero =>
    simp only [natToLeBytes, leBytesToNat, pow_zero]
    omega
  | succ w ih =>
    simp only [natToLeBytes, leBytesToNat, ih]
    rw [pow_succ']
    exact Nat.mod_mul.symm

theorem natToLeBytes_inj {w n1 n2 : Nat} (h1 : n1 < 256 ^ w) (h2 : n2 < 256 ^ w)
    (h : natToLeBytes w n1 = natToLeBytes w n2) : n1 = n2 := by
  have := congrArg leBytesToNat h
  rwa [leBytesToNat_natToLeBytes, leBytesToNat_natToLeBytes,
    Nat.mod_eq_of_lt h1, Nat.mod_eq_of_lt h2] at this

theorem int64ToLeBytes_inj {v1 v2 : Int}
    (l1 : -(2 ^ 63) ≤ v1) (u1 : v1 < 2 ^ 63)
    (l2 : -(2 ^ 63) ≤ v2) (u2 : v2 < 2 ^ 63)
    (h : int64ToLeBytes v1 = int64ToLeBytes v2) : v1 = v2 := by
  have hM : (0 : Int) < 2 ^ 64 := by positivity
  have e1 : (0 : Int) ≤ v1 % 2 ^ 64 := Int.emod_nonneg v1 (by positivity)
  have e2 : (0 : Int) ≤ v2 % 2 ^ 64 := Int.emod_nonneg v2 (by positivity)
  have b1 : v1 % 2 ^ 64 < 2 ^ 64 := Int.emod_lt_of_pos v1 hM
  have b2 : v2 % 2 ^ 64 < 2 ^ 64 := Int.emod_lt_of_pos v2 hM
  have hpow : ((256 : Nat) ^ 8 : Nat) = 18446744073709551616 := by norm_num
  have hpI : ((2 : Int) ^ 64 : Int) = 18446744073709551616 := by norm_num
  have hpI63 : ((2 : Int) ^ 63 : Int) = 9223372036854775808 := by norm_num
  rw [hpI] at e1 e2 b1 b2
  rw [hpI63] at l1 u1 l2 u2
  have hn : (v1 % (2 ^ 64 : Int)).toNat = (v2 % (2 ^ 64 : Int)).toNat := by
    refine natToLeBytes_inj ?_ ?_ h
    · rw [hpow, hpI]
      omega
    · rw [hpow, hpI]
      omega
  rw [hpI] at hn
  omega

/-- The trigger-condition enum of the compressed (hash-only) order variant. -/
inductive TriggerCondition
  | Above
  | Below
deriving DecidableEq

/-- The order-side enum of the compressed (hash-only) order variant. -/
inductive OrderSide
  | Long
  | Short
deriving DecidableEq

def TriggerCondition.toByte : TriggerCondition → Nat
  | .Above => 0
  | .Below => 1

def OrderSide.toByte : OrderSide → Nat
  | .Long => 0
  | .Short => 1

def boolByte (b : Bool) : Nat := if b then 1 else 0

/-- `CompressedGhostOrder` from ghost-bridge `state/compressed_order.rs`. -/
structure CompressedGhostOrder where
  owner : List Nat
  order_id : Nat
  market_index : Nat
  trigger_price : Int
  trigger_condition : TriggerCondition
  order_side : OrderSide
  base_asset_amount : Nat
  reduce_only : Bool
  expiry : Int
  feed_id : List Nat
  salt : List Nat
deriving DecidableEq

/-- The flat byte buffer hashed by `CompressedGhostOrder::compute_hash`:
fields serialized in the fixed source order. -/
def CompressedGhostOrder.serialize (o : CompressedGhostOrder) : List Nat :=
  o.owner ++ natToLeBytes 8 o.order_id ++ natToLeBytes 2 o.market_index ++
    int64ToLeBytes o.trigger_price ++ [o.trigger_condition.toByte] ++
    [o.order_side.toByte] ++ natToLeBytes 8 o.base_asset_amount ++
    [boolByte o.reduce_only] ++ int64ToLeBytes o.expiry ++ o.feed_id ++ o.salt

/-- `compute_hash`, parametrized by the external hash function (blake3 in the
source, a third-party cryptographic black box). -/
def CompressedGhostOrder.compute_hash (h : List Nat → List Nat)
    (o : CompressedGhostOrder) : List Nat :=
  h o.serialize

/-- `CompressedGhostOrder::check_trigger`. -/
def CompressedGhostOrder.check_trigger (o : CompressedGhostOrder)
    (current_price : Int) : Bool :=
  match o.trigger_condition with
  | .Above => current_price ≥ o.trigger_price
  | .Below => current_price ≤ o.trigger_price

/-- `CompressedGhostOrder::is_expired`. -/
def CompressedGhostOrder.is_expired (o : CompressedGhostOrder)
    (current_time : Int) : Bool :=
  o.expiry > 0 && current_time > o.expiry

/-- Width and range constraints the Rust types impose on a
`CompressedGhostOrder`: a `Pubkey` and a feed id are 32 bytes, a salt is
16 bytes, and the numeric fields fit their fixed-width machine types. -/
def CompressedGhostOrder.WellFormed (o : CompressedGhostOrder) : Prop :=
  o.owner.length = 32 ∧ o.order_id < 256 ^ 8 ∧ o.market_index < 256 ^ 2 ∧
    -(2 ^ 63) ≤ o.trigger_price ∧ o.trigger_price < 2 ^ 63 ∧
    o.base_asset_amount < 256 ^ 8 ∧ -(2 ^ 63) ≤ o.expiry ∧ o.expiry < 2 ^ 63 ∧
    o.feed_id.length = 32 ∧ o.salt.length = 16

instance (o : CompressedGhostOrder) : Decidable o.WellFormed := by
  unfold CompressedGhostOrder.WellFormed
  infer_instance

theorem triggerConditionToByte_inj {a b : TriggerCondition}
    (h : a.toByte = b.toByte) : a = b := by
  cases a <;> cases b <;> simp_all [TriggerCondition.toByte]

theorem orderSideToByte_inj {a b : OrderSide}
    (h : a.toByte = b.toByte) : a = b := by
  cases a <;> cases b <;> simp_all [OrderSide.toByte]

theorem boolByte_inj {a b : Bool} (h : boolByte a = boolByte b) : a = b := by
  cases a <;> cases b <;> simp_all [boolByte]

theorem int64ToLeBytes_length (v : Int) : (int64ToLeBytes v).length = 8 :=
  natToLeBytes_length 8 _

/-- The serialization of `compute_hash` is injective on well-formed orders:
every field participates with a fixed width, so two well-formed orders with
the same buffer are equal. -/
theorem CompressedGhostOrder.serialize_inj {o1 o2 : CompressedGhostOrder}
    (w1 : o1.WellFormed) (w2 : o2.WellFormed)
    (h : o1.serialize = o2.serialize) : o1 = o2 := by
  rcases o1 with ⟨aow, aid, ami, atp, atc, asd, aba, aro, aex, afd, asa⟩
  rcases o2 with ⟨bow, bid, bmi, btp, btc, bsd, bba, bro, bex, bfd, bsa⟩
  simp only [CompressedGhostOrder.WellFormed] at w1 w2
  obtain ⟨ow1, id1, mk1, tpl1, tpu1, ba1, exl1, exu1, fd1, sl1⟩ := w1
  obtain ⟨ow2, id2, mk2, tpl2, tpu2, ba2, exl2, exu2, fd2, sl2⟩ := w2
  simp only [CompressedGhostOrder.serialize] at h
  obtain ⟨h, hsalt⟩ := List.append_inj' h (by rw [sl1, sl2])
  obtain ⟨h, hfd⟩ := List.append_inj' h (by rw [fd1, fd2])
  obtain ⟨h, hex⟩ := List.append_inj' h (by rw [int64ToLeBytes_length, int64ToLeBytes_length])
  obtain ⟨h, hro⟩ := List.append_inj' h rfl
  obtain ⟨h, hba⟩ := List.append_inj' h (by rw [natToLeBytes_length, natToLeBytes_length])
  obtain ⟨h, hside⟩ := List.append_inj' h rfl
  obtain ⟨h, htc⟩ := List.append_inj' h rfl
  obtain ⟨h, htp⟩ := List.append_inj' h (by rw [int64ToLeBytes_length, int64ToLeBytes_length])
  obtain ⟨h, hmk⟩ := List.append_inj' h (by rw [natToLeBytes_length, natToLeBytes_length])
  obtain ⟨howner, hid⟩ := List.append_inj' h (by rw [natToLeBytes_length, natToLeBytes_length])
  simp only [CompressedGhostOrder.mk.injEq]
  exact ⟨howner, natToLeBytes_inj id1 id2 hid, natToLeBytes_inj mk1 mk2 hmk,
    int64ToLeBytes_inj tpl1 tpu1 tpl2 tpu2 htp,
    triggerConditionToByte_inj (by simpa using htc),
    orderSideToByte_inj (by simpa using hside),
    natToLeBytes_inj ba1 ba2 hba,
    boolByte_inj (by simpa using hro),
    int64ToLeBytes_inj exl1 exu1 exl2 exu2 hex, hfd, hsalt⟩

/-- A 32-byte value (hash or public key) stored in a registry slot. -/
abbrev Bytes32 := List Nat

/-- The zeroed 32-byte value written into vacated registry slots
(`[0u8; 32]` resp. `Pubkey::default()`). -/
def zero32 : Bytes32 := List.replicate 32 0

/-- Error codes of the ghost-bridge program (`errors.rs`). -/
inductive GhostBridgeError
  | MaxOrdersReached
  | OrderHashExists
  | OrderHashNotFound
  | OrderHashMismatch
  | OrderExpired
  | TriggerConditionNotMet
  | InvalidTriggerCondition
  | InvalidOrderData
  | Unauthorized
  | ExecutorNotAuthorized
  | MaxExecutorsReached
  | OrderNotActive
  | InvalidPriceFeed
  | MagicActionFailed
deriving DecidableEq

/-- `a.getD i z`: read of `array[i]` with an irrelevant default beyond the
fixed array length (never reached by the modelled code). -/
def slotGet (a : List Bytes32) (i : Nat) : Bytes32 := a.getD i zero32

/-- The active region of a fixed-capacity inline array: its first `count`
slots, in order. -/
def activeSlice (a : List Bytes32) (count : Nat) : List Bytes32 :=
  (List.range count).map (fun i => slotGet a i)

/-- The first index `i` (scanning from 0) at which `p` holds, mirroring the
linear search-and-break loops of `executor_authority.rs`. -/
def findFirst (p : Bytes32 → Bool) : List Bytes32 → Option Nat
  | [] => none
  | x :: xs => if p x then some 0 else (findFirst p xs).map (· + 1)

/-- The left-shift compaction loop `for i in idx..count-1 do a[i] = a[i+1]`,
expressed with the iteration count as fuel. -/
def shiftLoop (a : List Bytes32) (i : Nat) : Nat → List Bytes32
  | 0 => a
  | k + 1 => shiftLoop (a.set i (slotGet a (i + 1))) (i + 1) k

/-- `ExecutorAuthority` from ghost-bridge `state/executor_authority.rs`:
the fixed arrays keep all 16 resp. 4 slots, with `order_hash_count` and
`executor_count` delimiting the active regions. -/
structure ExecutorAuthority where
  owner : Bytes32
  order_count : Nat
  is_delegated : Bool
  bump : Nat
  order_hashes : List Bytes32
  order_hash_count : Nat
  authorized_executors : List Bytes32
  executor_count : Nat
deriving DecidableEq

/-- `ExecutorAuthority::has_order_hash`: linear membership test over the
active region. -/
def ExecutorAuthority.has_order_hash (s : ExecutorAuthority) (h : Bytes32) : Bool :=
  decide (h ∈ activeSlice s.order_hashes s.order_hash_count)

/-- `ExecutorAuthority::is_authorized_executor`. -/
def ExecutorAuthority.is_authorized_executor (s : ExecutorAuthority) (e : Bytes32) : Bool :=
  decide (e ∈ activeSlice s.authorized_executors s.executor_count)

/-- `ExecutorAuthority::add_order_hash`: capacity check, duplicate check,
append, bump both counters. -/
def ExecutorAuthority.add_order_hash (s : ExecutorAuthority) (h : Bytes32) :
    Except GhostBridgeError ExecutorAuthority :=
  if s.order_hash_count < 16 then
    if h ∈ activeSlice s.order_hashes s.order_hash_count then
      .error .OrderHashExists
    else
      .ok { s with
        order_hashes := s.order_hashes.set s.order_hash_count h,
        order_hash_count := s.order_hash_count + 1,
        order_count := s.order_count + 1 }
  else .error .MaxOrdersReached

/-- `ExecutorAuthority::remove_order_hash`: find the first occurrence,
left-shift the survivors, zero the vacated slot, decrement the count. -/
def ExecutorAuthority.remove_order_hash (s : ExecutorAuthority) (h : Bytes32) :
    Except GhostBridgeError ExecutorAuthority :=
  match findFirst (fun x => decide (x = h)) (activeSlice s.order_hashes s.order_hash_count) with
  | some idx =>
      .ok { s with
        order_hashes :=
          (shiftLoop s.order_hashes idx (s.order_hash_count - 1 - idx)).set
            (s.order_hash_count - 1) zero32,
        order_hash_count := s.order_hash_count - 1 }
  | none => .error .OrderHashNotFound

/-- `ExecutorAuthority::add_authorized_executor`: capacity check first, then
an idempotent membership scan (re-adding an existing key is a no-op). -/
def ExecutorAuthority.add_authorized_executor (s : ExecutorAuthority) (e : Bytes32) :
    Except GhostBridgeError ExecutorAuthority :=
  if s.executor_count < 4 then
    if e ∈ activeSlice s.authorized_executors s.executor_count then
      .ok s
    else
      .ok { s with
        authorized_executors := s.authorized_executors.set s.executor_count e,
        executor_count := s.executor_count + 1 }
  else .error .MaxExecutorsReached

/-- `ExecutorAuthority::remove_authorized_executor`: same compaction pattern
as hash removal, but silently succeeds when the key is absent. -/
def ExecutorAuthority.remove_authorized_executor (s : ExecutorAuthority) (e : Bytes32) :
    Except GhostBridgeError ExecutorAuthority :=
  match findFirst (fun x => decide (x = e)) (activeSlice s.authorized_executors s.executor_count) with
  | some idx =>
      .ok { s with
        authorized_executors :=
          (shiftLoop s.authorized_executors idx (s.executor_count - 1 - idx)).set
            (s.executor_count - 1) zero32,
        executor_count := s.executor_count - 1 }
  | none => .ok s

/-- The fixed array lengths of the Rust account layout. -/
def ExecutorAuthority.Wf (s : ExecutorAuthority) : Prop :=
  s.order_hashes.length = 16 ∧ s.authorized_executors.length = 4

/-- The registry invariant of the spec: no duplicates in either active
region, and the counts respect the capacities 16 and 4. -/
def ExecutorAuthority.Inv (s : ExecutorAuthority) : Prop :=
  (activeSlice s.order_hashes s.order_hash_count).Nodup ∧
    s.order_hash_count ≤ 16 ∧
    (activeSlice s.authorized_executors s.executor_count).Nodup ∧
    s.executor_count ≤ 4

instance (s : ExecutorAuthority) : Decidable s.Wf := by
  unfold ExecutorAuthority.Wf
  infer_instance

instance (s : ExecutorAuthority) : Decidable s.Inv := by
  unfold ExecutorAuthority.Inv
  infer_instance

theorem activeSlice_length (a : List Bytes32) (c : Nat) :
    (activeSlice a c).length = c := by
  simp [activeSlice]

theorem activeSlice_getElem (a : List Bytes32) (c j : Nat)
    (hj : j < (activeSlice a c).length) :
    (activeSlice a c)[j] = slotGet a j := by
  simp [activeSlice]

theorem slotGet_set_ne (a : List Bytes32) (i j : Nat) (v : Bytes32) (hij : i ≠ j) :
    slotGet (a.set i v) j = slotGet a j := by
  induction a generalizing i j with
  | nil => simp [List.set]
  | cons x xs ih =>
    cases i with
    | zero =>
      cases j with
      | zero => exact absurd rfl hij
      | succ j => simp [slotGet, List.set, List.getD]
    | succ i =>
      cases j with
      | zero => simp [slotGet, List.set, List.getD]
      | succ j =>
        simp only [slotGet, List.set, List.getD] at *
        exact ih i j (by omega)

theorem slotGet_set_self (a : List Bytes32) (i : Nat) (v : Bytes32) (hi : i < a.length) :
    slotGet (a.set i v) i = v := by
  induction a generalizing i with
  | nil => simp at hi
  | cons x xs ih =>
    cases i with
    | zero => simp [slotGet, List.set]
    | succ i =>
      simp only [slotGet, List.set, List.getD] at *
      exact ih i (by simpa using hi)

theorem shiftLoop_length (a : List Bytes32) (i k : Nat) :
    (shiftLoop a i k).length = a.length := by
  induction k generalizing a i with
  | zero => rfl
  | succ k ih => simp [shiftLoop, ih]

theorem shiftLoop_slotGet (a : List Bytes32) (i k j : Nat) (hk : i + k ≤ a.length) :
    slotGet (shiftLoop a i k) j =
      if i ≤ j ∧ j < i + k then slotGet a (j + 1) else slotGet a j := by
  induction k generalizing a i with
  | zero =>
    simp only [shiftLoop, Nat.add_zero]
    rw [if_neg (by omega)]
  | succ k ih =>
    simp only [shiftLoop]
    rw [ih]
    · by_cases h1 : i + 1 ≤ j ∧ j < i + 1 + k
      · have h2 : i ≤ j ∧ j < i + (k + 1) := by omega
        simp only [h1, h2, if_pos]
        exact slotGet_set_ne _ _ _ _ (by omega)
      · simp only [h1, if_neg, if_false]
        by_cases hji : j = i
        · subst hji
          have h2 : j ≤ j ∧ j < j + (k + 1) := by omega
          simp only [h2, if_pos]
          exact slotGet_set_self _ _ _ (by omega)
        · have h2 : ¬(i ≤ j ∧ j < i + (k + 1)) := by omega
          simp only [h2, if_neg, if_false]
          exact slotGet_set_ne _ _ _ _ (by omega)
    · simpa using by omega

theorem findFirst_lt_length {p : Bytes32 → Bool} {l : List Bytes32} {i : Nat}
    (h : findFirst p l = some i) : i < l.length := by
  induction l generalizing i with
  | nil => simp [findFirst] at h
  | cons x xs ih =>
    simp only [findFirst] at h
    by_cases hx : p x
    · rw [if_pos hx] at h
      obtain rfl : (0 : Nat) = i := Option.some.inj h
      simp
    · rw [if_neg hx] at h
      match he : findFirst p xs with
      | none =>
        rw [he] at h
        simp at h
      | some j =>
        rw [he] at h
        obtain rfl : j + 1 = i := by simpa using h
        have := ih he
        simp only [List.length_cons]
        omega

theorem findFirst_none_iff {p : Bytes32 → Bool} {l : List Bytes32} :
    findFirst p l = none ↔ ∀ x ∈ l, ¬p x := by
  induction l with
  | nil => simp [findFirst]
  | cons x xs ih =>
    by_cases hx : p x <;> simp [findFirst, hx, ih]

theorem findFirst_eraseIdx {x : Bytes32} {l : List Bytes32} {i : Nat}
    (h : findFirst (fun y => decide (y = x)) l = some i) :
    l.eraseIdx i = l.erase x := by
  induction l generalizing i with
  | nil => simp [findFirst] at h
  | cons a t ih =>
    simp only [findFirst] at h
    by_cases ha : a = x
    · rw [if_pos (by simp [ha])] at h
      obtain rfl : (0 : Nat) = i := Option.some.inj h
      subst ha
      simp [List.eraseIdx, List.erase_cons]
    · rw [if_neg (by simp [ha])] at h
      match he : findFirst (fun y => decide (y = x)) t with
      | none =>
        rw [he] at h
        simp at h
      | some j =>
        rw [he] at h
        obtain rfl : j + 1 = i := by simpa using h
        simp [List.eraseIdx, List.erase_cons, ha, ih he]

/-- The compaction loop plus vacated-slot zeroing implements `eraseIdx` on
the active region. -/
theorem remove_activeSlice (a : List Bytes32) (c idx : Nat)
    (hc : c ≤ a.length) (hidx : idx < c) :
    activeSlice ((shiftLoop a idx (c - 1 - idx)).set (c - 1) zero32) (c - 1) =
      (activeSlice a c).eraseIdx idx := by
  refine List.ext_getElem ?_ ?_
  · rw [activeSlice_length, List.length_eraseIdx]
    rw [activeSlice_length]
    simp [hidx]
  · intro j h1 h2
    have h1c : j < c - 1 := by
      simpa [activeSlice_length] using h1
    rw [activeSlice_getElem _ _ _ h1]
    have hj : j < c - 1 := h1c
    have hset : slotGet ((shiftLoop a idx (c - 1 - idx)).set (c - 1) zero32) j =
        slotGet (shiftLoop a idx (c - 1 - idx)) j :=
      slotGet_set_ne _ _ _ _ (by omega)
    rw [hset, shiftLoop_slotGet _ _ _ _ (by omega)]
    rw [List.getElem_eraseIdx]
    by_cases hji : j < idx
    · have : ¬(idx ≤ j ∧ j < idx + (c - 1 - idx)) := by omega
      simp only [this, if_neg, if_false, hji, if_pos]
      exact (activeSlice_getElem a c j (by simp [activeSlice_length]; omega)).symm
    · have : idx ≤ j ∧ j < idx + (c - 1 - idx) := by omega
      simp only [this, if_pos, hji, if_neg, if_false]
      exact (activeSlice_getElem a c (j + 1) (by simp [activeSlice_length]; omega)).symm

/-- Appending into the first free slot extends the active region by one. -/
theorem add_activeSlice (a : List Bytes32) (c : Nat) (v : Bytes32)
    (hc : c < a.length) :
    activeSlice (a.set c v) (c + 1) = activeSlice a c ++ [v] := by
  refine List.ext_getElem ?_ ?_
  · simp [activeSlice_length]
  · intro j h1 h2
    have h1c : j < c + 1 := by
      simpa [activeSlice_length] using h1
    rw [activeSlice_getElem _ _ _ h1]
    by_cases hj : j < c
    · rw [List.getElem_append_left (by simpa [activeSlice_length] using hj)]
      rw [activeSlice_getElem _ _ _ (by simp [activeSlice_length]; omega)]
      exact slotGet_set_ne _ _ _ _ (by omega)
    · have hj2 : j = c := by omega
      subst hj2
      rw [List.getElem_append_right (by simp [activeSlice_length])]
      simp only [activeSlice_length]
      simp only [Nat.sub_self, List.getElem_singleton]
      exact slotGet_set_self _ _ _ hc

theorem findFirst_none_iff_not_mem {h : Bytes32} {l : List Bytes32} :
    findFirst (fun y => decide (y = h)) l = none ↔ h ∉ l := by
  rw [findFirst_none_iff]
  constructor
  · intro hall hmem
    exact hall h hmem (by simp)
  · intro hnm x hx hpx
    have : x = h := by simpa using hpx
    exact hnm (this ▸ hx)

/-- Success and effect of `remove_order_hash`: on success the active region
is exactly the old one with the first occurrence of the hash erased, the
count drops by one, and every other field survives unchanged. -/
theorem remove_order_hash_spec {s t : ExecutorAuthority} {h : Bytes32}
    (hwf : s.Wf) (hc : s.order_hash_count ≤ 16)
    (hok : s.remove_order_hash h = .ok t) :
    activeSlice t.order_hashes t.order_hash_count =
      (activeSlice s.order_hashes s.order_hash_count).erase h ∧
    t.order_hash_count = s.order_hash_count - 1 ∧
    t.owner = s.owner ∧ t.is_delegated = s.is_delegated ∧
    t.order_count = s.order_count ∧ t.bump = s.bump ∧
    t.authorized_executors = s.authorized_executors ∧
    t.executor_count = s.executor_count ∧
    t.order_hashes.length = s.order_hashes.length := by
  unfold ExecutorAuthority.remove_order_hash at hok
  split at hok
  case h_2 => cases hok
  case h_1 idx he =>
    simp only [Except.ok.injEq] at hok
    subst hok
    have hidx : idx < s.order_hash_count := by
      have := findFirst_lt_length he
      rwa [activeSlice_length] at this
    have hlen : s.order_hash_count ≤ s.order_hashes.length := by
      rw [hwf.1]
      exact hc
    refine ⟨?_, rfl, rfl, rfl, rfl, rfl, rfl, rfl, ?_⟩
    · rw [remove_activeSlice _ _ _ hlen hidx, findFirst_eraseIdx he]
    · simp [shiftLoop_length]

/-- `remove_order_hash` succeeds exactly when the hash is in the active
region, i.e. when `has_order_hash` holds. -/
theorem remove_order_hash_ok_iff {s : ExecutorAuthority} {h : Bytes32} :
    (∃ t, s.remove_order_hash h = .ok t) ↔ s.has_order_hash h = true := by
  unfold ExecutorAuthority.remove_order_hash ExecutorAuthority.has_order_hash
  constructor
  · rintro ⟨t, ht⟩
    split at ht
    case h_2 => cases ht
    case h_1 idx he =>
      by_contra hmem
      rw [findFirst_none_iff_not_mem.2 (by simpa using hmem)] at he
      cases he
  · intro hmem
    match he : findFirst (fun y => decide (y = h))
        (activeSlice s.order_hashes s.order_hash_count) with
    | some idx =>
      exact ⟨_, rfl⟩
    | none =>
      exact absurd (by simpa using hmem) (findFirst_none_iff_not_mem.1 he)

/-- Failure of `remove_order_hash`: the hash is absent and the error is
`OrderHashNotFound`. -/
theorem remove_order_hash_err {s : ExecutorAuthority} {h : Bytes32}
    (hmem : s.has_order_hash h = false) :
    s.remove_order_hash h = .error .OrderHashNotFound := by
  unfold ExecutorAuthority.remove_order_hash
  rw [findFirst_none_iff_not_mem.2 (by simpa [ExecutorAuthority.has_order_hash] using hmem)]

theorem inv_add_order_hash {s t : ExecutorAuthority} {h : Bytes32}
    (hwf : s.Wf) (hinv : s.Inv)
    (hok : s.add_order_hash h = .ok t) : t.Inv ∧ t.Wf := by
  obtain ⟨hnd, hc, hnd2, hc2⟩ := hinv
  unfold ExecutorAuthority.add_order_hash at hok
  split_ifs at hok with h1 h2
  simp only [Except.ok.injEq] at hok
  subst hok
  have hlt : s.order_hash_count < s.order_hashes.length := by
    rw [hwf.1]
    exact h1
  unfold ExecutorAuthority.Inv ExecutorAuthority.Wf
  dsimp only
  rw [add_activeSlice _ _ _ hlt]
  refine ⟨⟨?_, by omega, hnd2, hc2⟩, by simpa using hwf.1, hwf.2⟩
  simp [List.nodup_append, hnd, h2]

theorem inv_remove_order_hash {s t : ExecutorAuthority} {h : Bytes32}
    (hwf : s.Wf) (hinv : s.Inv)
    (hok : s.remove_order_hash h = .ok t) : t.Inv ∧ t.Wf := by
  obtain ⟨hnd, hc, hnd2, hc2⟩ := hinv
  obtain ⟨hsl, hcnt, _, _, _, _, hex, hexc, hlen⟩ :=
    remove_order_hash_spec hwf hc hok
  refine ⟨⟨?_, by omega, ?_, ?_⟩, ?_, ?_⟩
  · rw [hsl]
    exact hnd.erase h
  · rw [hex, hexc]
    exact hnd2
  · rw [hexc]
    exact hc2
  · rw [hlen]
    exact hwf.1
  · rw [hex]
    exact hwf.2

theorem inv_add_authorized_executor {s t : ExecutorAuthority} {e : Bytes32}
    (hwf : s.Wf) (hinv : s.Inv)
    (hok : s.add_authorized_executor e = .ok t) : t.Inv ∧ t.Wf := by
  obtain ⟨hnd, hc, hnd2, hc2⟩ := hinv
  unfold ExecutorAuthority.add_authorized_executor at hok
  split_ifs at hok with h1 h2
  · simp only [Except.ok.injEq] at hok
    subst hok
    exact ⟨⟨hnd, hc, hnd2, hc2⟩, hwf⟩
  · simp only [Except.ok.injEq] at hok
    subst hok
    have hlt : s.executor_count < s.authorized_executors.length := by
      rw [hwf.2]
      exact h1
    unfold ExecutorAuthority.Inv ExecutorAuthority.Wf
    dsimp only
    rw [add_activeSlice _ _ _ hlt]
    refine ⟨⟨hnd, hc, ?_, by omega⟩, hwf.1, by simpa using hwf.2⟩
    simp [List.nodup_append, hnd2, h2]

/-- Success and effect of `remove_authorized_executor` in the found case. -/
theorem remove_authorized_executor_spec {s t : ExecutorAuthority} {e : Bytes32}
    (hwf : s.Wf) (hc : s.executor_count ≤ 4)
    (hok : s.remove_authorized_executor e = .ok t) :
    (t = s ∧ s.is_authorized_executor e = false) ∨
      (activeSlice t.authorized_executors t.executor_count =
        (activeSlice s.authorized_executors s.executor_count).erase e ∧
      t.executor_count = s.executor_count - 1 ∧
      t.order_hashes = s.order_hashes ∧
      t.order_hash_count = s.order_hash_count ∧
      t.authorized_executors.length = s.authorized_executors.length) := by
  unfold ExecutorAuthority.remove_authorized_executor at hok
  split at hok
  case h_2 he =>
    simp only [Except.ok.injEq] at hok
    subst hok
    left
    refine ⟨rfl, ?_⟩
    have := findFirst_none_iff_not_mem.1 he
    simpa [ExecutorAuthority.is_authorized_executor] using this
  case h_1 idx he =>
    simp only [Except.ok.injEq] at hok
    subst hok
    have hidx : idx < s.executor_count := by
      have := findFirst_lt_length he
      rwa [activeSlice_length] at this
    have hlen : s.executor_count ≤ s.authorized_executors.length := by
      rw [hwf.2]
      exact hc
    right
    refine ⟨?_, rfl, rfl, rfl, ?_⟩
    · rw [remove_activeSlice _ _ _ hlen hidx, findFirst_eraseIdx he]
    · simp [shiftLoop_length]

theorem inv_remove_authorized_executor {s t : ExecutorAuthority} {e : Bytes32}
    (hwf : s.Wf) (hinv : s.Inv)
    (hok : s.remove_authorized_executor e = .ok t) : t.Inv ∧ t.Wf := by
  obtain ⟨hnd, hc, hnd2, hc2⟩ := hinv
  rcases remove_authorized_executor_spec hwf hc2 hok with ⟨rfl, _⟩ | hspec
  · exact ⟨⟨hnd, hc, hnd2, hc2⟩, hwf⟩
  · obtain ⟨hsl, hcnt, hoh, hohc, hlen⟩ := hspec
    refine ⟨⟨?_, ?_, ?_, by omega⟩, ?_, ?_⟩
    · rw [hoh, hohc]
      exact hnd
    · rw [hohc]
      exact hc
    · rw [hsl]
      exact hnd2.erase e
    · rw [hoh]
      exact hwf.1
    · rw [hlen]
      exact hwf.2

/-- The fixed 8-byte method selector of the downstream place-order call
(`sha256("global:place_perp_order")[0..8]`, verified by the source tests). -/
def PLACE_PERP_ORDER_DISCRIMINATOR : List Nat :=
  [0x45, 0xa1, 0x5d, 0xca, 0x78, 0x7e, 0x4c, 0xb9]

/-- Order types of the downstream venue. -/
inductive DriftOrderType
  | Market
  | Limit
  | TriggerMarket
  | TriggerLimit
  | Oracle
deriving DecidableEq

def DriftOrderType.toByte : DriftOrderType → Nat
  | .Market => 0
  | .Limit => 1
  | .TriggerMarket => 2
  | .TriggerLimit => 3
  | .Oracle => 4

/-- `build_drift_place_perp_order_full` from ghost-bridge `drift_cpi.rs`:
the exact 40-byte wire layout of the place-order call. -/
def build_drift_place_perp_order_full (order_type : DriftOrderType)
    (market_index : Nat) (side : OrderSide) (base_asset_amount : Nat)
    (price : Nat) (reduce_only : Bool) (bit_flags : Nat) : List Nat :=
  PLACE_PERP_ORDER_DISCRIMINATOR ++ [order_type.toByte] ++ [1] ++
    [side.toByte] ++ [0] ++ natToLeBytes 8 base_asset_amount ++
    natToLeBytes 8 price ++ natToLeBytes 2 market_index ++
    [boolByte reduce_only] ++ [0] ++ [bit_flags] ++
    [0] ++ [0] ++ [0] ++ [0] ++ [0] ++ [0] ++ [0]

/-- `build_drift_place_perp_order`: the market-order wrapper (order type
Market, price 0, bit flags 0). -/
def build_drift_place_perp_order (market_index : Nat) (side : OrderSide)
    (base_asset_amount : Nat) (reduce_only : Bool) : List Nat :=
  build_drift_place_perp_order_full .Market market_index side
    base_asset_amount 0 reduce_only 0

theorem build_market_order_nf (market_index : Nat) (side : OrderSide)
    (amount : Nat) (reduce_only : Bool) :
    build_drift_place_perp_order market_index side amount reduce_only =
      0x45 :: 0xa1 :: 0x5d :: 0xca :: 0x78 :: 0x7e :: 0x4c :: 0xb9 ::
      0 :: 1 :: side.toByte :: 0 ::
      (natToLeBytes 8 amount ++ (natToLeBytes 8 0 ++ (natToLeBytes 2 market_index ++
        (boolByte reduce_only :: 0 :: 0 :: 0 :: 0 :: 0 :: 0 :: 0 :: 0 :: [0])))) := by
  simp [build_drift_place_perp_order, build_drift_place_perp_order_full,
    PLACE_PERP_ORDER_DISCRIMINATOR, DriftOrderType.toByte]

theorem take_append_of_length {l1 l2 : List Nat} {n : Nat} (h : l1.length = n) :
    (l1 ++ l2).take n = l1 := by
  subst h
  exact List.take_left l1 l2

theorem drop_append_of_length {l1 l2 : List Nat} {n : Nat} (h : l1.length = n) :
    (l1 ++ l2).drop n = l2 := by
  subst h
  simp

/-- C8. The ghost-bridge settlement call builder produces exactly the 40-byte
market-order layout: fixed selector, Market order type, Perp market type,
direction byte, zero user order id, little-endian amount, zero price,
little-endian market index, reduce-only flag, and all-zero trailing option
bytes. -/
theorem c8_settlement_wire_format (market_index : Nat) (side : OrderSide)
    (amount : Nat) (reduce_only : Bool) (d : List Nat)
    (hmi : market_index < 256 ^ 2) (hamt : amount < 256 ^ 8)
    (hd : d = build_drift_place_perp_order market_index side amount reduce_only) :
    d.length = 40 ∧
    d.take 8 = PLACE_PERP_ORDER_DISCRIMINATOR ∧
    d.getD 8 0 = 0 ∧
    d.getD 9 0 = 1 ∧
    d.getD 10 0 = (if side = .Long then 0 else 1) ∧
    d.getD 11 0 = 0 ∧
    (d.drop 12).take 8 = natToLeBytes 8 amount ∧
    leBytesToNat ((d.drop 12).take 8) = amount ∧
    (d.drop 20).take 8 = List.replicate 8 0 ∧
    (d.drop 28).take 2 = natToLeBytes 2 market_index ∧
    leBytesToNat ((d.drop 28).take 2) = market_index ∧
    (d.drop 30).take 1 = [boolByte reduce_only] ∧
    d.drop 31 = List.replicate 9 0 := by
  have hnf := build_market_order_nf market_index side amount reduce_only
  rw [← hd] at hnf
  have h12 : d.drop 12 =
      natToLeBytes 8 amount ++ (natToLeBytes 8 0 ++ (natToLeBytes 2 market_index ++
        (boolByte reduce_only :: 0 :: 0 :: 0 :: 0 :: 0 :: 0 :: 0 :: 0 :: [0]))) := by
    rw [hnf]
    rfl
  have h20 : d.drop 20 =
      natToLeBytes 8 0 ++ (natToLeBytes 2 market_index ++
        (boolByte reduce_only :: 0 :: 0 :: 0 :: 0 :: 0 :: 0 :: 0 :: 0 :: [0])) := by
    have e : d.drop 20 = (d.drop 12).drop 8 := by
      rw [hnf]
      rfl
    rw [e, h12]
    exact drop_append_of_length (natToLeBytes_length 8 amount)
  have h28 : d.drop 28 =
      natToLeBytes 2 market_index ++
        (boolByte reduce_only :: 0 :: 0 :: 0 :: 0 :: 0 :: 0 :: 0 :: 0 :: [0]) := by
    have e : d.drop 28 = (d.drop 20).drop 8 := by
      rw [hnf]
      rfl
    rw [e, h20]
    exact drop_append_of_length (natToLeBytes_length 8 0)
  have h30 : d.drop 30 =
      boolByte reduce_only :: 0 :: 0 :: 0 :: 0 :: 0 :: 0 :: 0 :: 0 :: [0] := by
    have e : d.drop 30 = (d.drop 28).drop 2 := by
      rw [hnf]
      rfl
    rw [e, h28]
    exact drop_append_of_length (natToLeBytes_length 2 market_index)
  refine ⟨?_, ?_, ?_, ?_, ?_, ?_, ?_, ?_, ?_, ?_, ?_, ?_, ?_⟩
  · rw [hnf]
    simp [natToLeBytes_length]
  · rw [hnf]
    rfl
  · rw [hnf]
    rfl
  · rw [hnf]
    rfl
  · rw [hnf]
    cases side <;> simp [OrderSide.toByte, List.getD]
  · rw [hnf]
    rfl
  · rw [h12]
    exact take_append_of_length (natToLeBytes_length 8 amount)
  · rw [h12, take_append_of_length (natToLeBytes_length 8 amount)]
    rw [leBytesToNat_natToLeBytes]
    exact Nat.mod_eq_of_lt hamt
  · rw [h20, take_append_of_length (natToLeBytes_length 8 0)]
    rfl
  · rw [h28]
    exact take_append_of_length (natToLeBytes_length 2 market_index)
  · rw [h28, take_append_of_length (natToLeBytes_length 2 market_index)]
    rw [leBytesToNat_natToLeBytes]
    exact Nat.mod_eq_of_lt hmi
  · rw [h30]
    rfl
  · have e : d.drop 31 = (d.drop 30).drop 1 := by
      rw [hnf]
      rfl
    rw [e, h30]
    rfl

/-- C8 witness: the theorem evaluated at the concrete inputs of the spec's
test vector (side Long, market 7, amount 1000000000, reduce-only false). -/
theorem c8_settlement_wire_format_witness :
    (build_drift_place_perp_order 7 .Long 1000000000 false).length = 40 ∧
    leBytesToNat (((build_drift_place_perp_order 7 .Long 1000000000 false).drop 12).take 8) =
      1000000000 ∧
    (build_drift_place_perp_order 7 .Long 1000000000 false).getD 10 0 = 0 ∧
    leBytesToNat (((build_drift_place_perp_order 7 .Long 1000000000 false).drop 28).take 2) = 7 ∧
    (build_drift_place_perp_order 7 .Long 1000000000 false).drop 31 = List.replicate 9 0 := by
  obtain ⟨h1, _, _, _, h10, _, _, h12, _, _, h28, _, h31⟩ :=
    c8_settlement_wire_format 7 .Long 1000000000 false
      (build_drift_place_perp_order 7 .Long 1000000000 false)
      (by norm_num) (by norm_num) rfl
  exact ⟨h1, h12, by simpa using h10, h28, h31⟩

/-- `ConsumeAndExecuteArgs` from ghost-bridge `consume_and_execute.rs`; the
enum fields arrive as raw bytes and are decoded by the handler. -/
structure ConsumeAndExecuteArgs where
  order_id : Nat
  market_index : Nat
  trigger_price : Int
  trigger_condition : Nat
  order_side : Nat
  base_asset_amount : Nat
  reduce_only : Bool
  expiry : Int
  feed_id : List Nat
  salt : List Nat
  current_price : Int
  keep_delegated : Bool
deriving DecidableEq

/-- The byte-to-enum decode at the top of the handlers (`match` on 0/1). -/
def decodeTriggerCondition : Nat → Except GhostBridgeError TriggerCondition
  | 0 => .ok .Above
  | 1 => .ok .Below
  | _ => .error .InvalidTriggerCondition

/-- The byte-to-enum decode for the order side (`match` on 0/1). -/
def decodeOrderSide : Nat → Except GhostBridgeError OrderSide
  | 0 => .ok .Long
  | 1 => .ok .Short
  | _ => .error .InvalidOrderData

/-- An (identity, is-writable) pair of the settlement sub-call account list. -/
structure ShortAccountMeta where
  pubkey : Bytes32
  is_writable : Bool
deriving DecidableEq

/-- `build_drift_short_account_metas` as in `consume_and_execute.rs` and
`trigger_and_execute.rs` (identical bodies): state, user, authority,
user-stats, market, oracle. -/
def build_drift_short_account_metas (drift_state drift_user drift_user_stats
    authority perp_market oracle : Bytes32) : List ShortAccountMeta :=
  [{ pubkey := drift_state, is_writable := false },
   { pubkey := drift_user, is_writable := true },
   { pubkey := authority, is_writable := false },
   { pubkey := drift_user_stats, is_writable := true },
   { pubkey := perp_market, is_writable := true },
   { pubkey := oracle, is_writable := false }]

/-- The shape of the bundled domain-migration action: stay delegated
(`Commit`) or hand custody back (`CommitAndUndelegate`). -/
inductive MagicShape
  | Commit
  | CommitAndUndelegate
deriving DecidableEq

/-- The settlement sub-call issued through the magic builder: call data,
ordered account list, and the migration shape it is bundled with. -/
structure SettlementCall where
  data : List Nat
  accounts : List ShortAccountMeta
  shape : MagicShape
deriving DecidableEq

/-- The accounts supplied to `consume_and_execute`; the oracle account is
passed as key plus raw data (the handler only ever reads the key). -/
structure ConsumeAccounts where
  payer : Bytes32
  drift_state : Bytes32
  drift_user : Bytes32
  drift_user_stats : Bytes32
  drift_authority : Bytes32
  perp_market : Bytes32
  oracle_key : Bytes32
  oracle_data : List Nat
deriving DecidableEq

/-- The `CompressedGhostOrder` the handler reconstructs from the
caller-supplied arguments and the stored owner. -/
def orderFromConsumeArgs (owner : Bytes32) (args : ConsumeAndExecuteArgs)
    (tc : TriggerCondition) (side : OrderSide) : CompressedGhostOrder :=
  { owner := owner
    order_id := args.order_id
    market_index := args.market_index
    trigger_price := args.trigger_price
    trigger_condition := tc
    order_side := side
    base_asset_amount := args.base_asset_amount
    reduce_only := args.reduce_only
    expiry := args.expiry
    feed_id := args.feed_id
    salt := args.salt }

/-- The `consume_and_execute` handler: decode enums, recompute the hash,
require membership, non-expiry and the trigger, remove the hash, clear the
delegation flag unless `keep_delegated`, and issue the settlement sub-call
(commit-and-undelegate unless `keep_delegated`). -/
def consume_and_execute (hashFn : List Nat → List Nat) (s : ExecutorAuthority)
    (accs : ConsumeAccounts) (args : ConsumeAndExecuteArgs) (now : Int) :
    Except GhostBridgeError (ExecutorAuthority × SettlementCall) :=
  match decodeTriggerCondition args.trigger_condition with
  | .error e => .error e
  | .ok tc =>
    match decodeOrderSide args.order_side with
    | .error e => .error e
    | .ok side =>
      let order := orderFromConsumeArgs s.owner args tc side
      let order_hash := order.compute_hash hashFn
      if s.has_order_hash order_hash then
        if order.is_expired now then .error .OrderExpired
        else if order.check_trigger args.current_price then
          match s.remove_order_hash order_hash with
          | .error e => .error e
          | .ok s1 =>
            let s2 := if args.keep_delegated then s1
              else { s1 with is_delegated := false }
            .ok (s2,
              { data := build_drift_place_perp_order args.market_index side
                  args.base_asset_amount args.reduce_only
                accounts := build_drift_short_account_metas accs.drift_state
                  accs.drift_user accs.drift_user_stats accs.drift_authority
                  accs.perp_market accs.oracle_key
                shape := if args.keep_delegated then MagicShape.Commit
                  else MagicShape.CommitAndUndelegate })
        else .error .TriggerConditionNotMet
      else .error .OrderHashNotFound

/-- C2. `consume_and_execute` succeeds exactly when the hash recomputed from
the caller-supplied parameters is registered, the order is not expired, and
the supplied current price satisfies the trigger; on success it erases
exactly that hash, clears `is_delegated` unless `keep_delegated`, and issues
the settlement sub-call; each failed precondition aborts with its error
(`OrderHashNotFound`, `OrderExpired`, `TriggerConditionNotMet`). -/
theorem c2_consume_and_execute_spec (hashFn : List Nat → List Nat)
    (s : ExecutorAuthority) (accs : ConsumeAccounts)
    (args : ConsumeAndExecuteArgs) (now : Int)
    (tc : TriggerCondition) (side : OrderSide)
    (o : CompressedGhostOrder) (ohash : List Nat)
    (hwf : s.Wf) (hinv : s.Inv)
    (htc : decodeTriggerCondition args.trigger_condition = .ok tc)
    (hside : decodeOrderSide args.order_side = .ok side)
    (ho : o = orderFromConsumeArgs s.owner args tc side)
    (hh : ohash = o.compute_hash hashFn) :
    ((∃ r, consume_and_execute hashFn s accs args now = .ok r) ↔
      s.has_order_hash ohash = true ∧ o.is_expired now = false ∧
        o.check_trigger args.current_price = true) ∧
    (∀ t call, consume_and_execute hashFn s accs args now = .ok (t, call) →
      activeSlice t.order_hashes t.order_hash_count =
        (activeSlice s.order_hashes s.order_hash_count).erase ohash ∧
      t.order_hash_count = s.order_hash_count - 1 ∧
      t.is_delegated = (if args.keep_delegated then s.is_delegated else false) ∧
      t.owner = s.owner ∧
      t.authorized_executors = s.authorized_executors ∧
      t.executor_count = s.executor_count ∧
      call.data = build_drift_place_perp_order args.market_index side
          args.base_asset_amount args.reduce_only ∧
      call.accounts = build_drift_short_account_metas accs.drift_state
          accs.drift_user accs.drift_user_stats accs.drift_authority
          accs.perp_market accs.oracle_key ∧
      call.shape = (if args.keep_delegated then MagicShape.Commit
          else MagicShape.CommitAndUndelegate)) ∧
    (s.has_order_hash ohash = false →
      consume_and_execute hashFn s accs args now = .error .OrderHashNotFound) ∧
    (s.has_order_hash ohash = true → o.is_expired now = true →
      consume_and_execute hashFn s accs args now = .error .OrderExpired) ∧
    (s.has_order_hash ohash = true → o.is_expired now = false →
      o.check_trigger args.current_price = false →
      consume_and_execute hashFn s accs args now = .error .TriggerConditionNotMet) := by
  subst ho
  subst hh
  have hrun : (consume_and_execute hashFn s accs args now =
      (if (orderFromConsumeArgs s.owner args tc side).is_expired now then
          Except.error GhostBridgeError.OrderExpired
        else if (orderFromConsumeArgs s.owner args tc side).check_trigger
            args.current_price then
          match s.remove_order_hash
              ((orderFromConsumeArgs s.owner args tc side).compute_hash hashFn) with
          | .error e => .error e
          | .ok s1 =>
            .ok ((if args.keep_delegated then s1
                else { s1 with is_delegated := false }),
              { data := build_drift_place_perp_order args.market_index side
                  args.base_asset_amount args.reduce_only
                accounts := build_drift_short_account_metas accs.drift_state
                  accs.drift_user accs.drift_user_stats accs.drift_authority
                  accs.perp_market accs.oracle_key
                shape := if args.keep_delegated then MagicShape.Commit
                  else MagicShape.CommitAndUndelegate })
        else Except.error GhostBridgeError.TriggerConditionNotMet) ∧
      s.has_order_hash
        ((orderFromConsumeArgs s.owner args tc side).compute_hash hashFn) = true)
      ∨ (consume_and_execute hashFn s accs args now =
          Except.error GhostBridgeError.OrderHashNotFound ∧
        s.has_order_hash
          ((orderFromConsumeArgs s.owner args tc side).compute_hash hashFn) = false) := by
    unfold consume_and_execute
    rw [htc, hside]
    dsimp only
    by_cases hmem : s.has_order_hash
        ((orderFromConsumeArgs s.owner args tc side).compute_hash hashFn)
    · left
      rw [if_pos hmem]
      exact ⟨rfl, hmem⟩
    · right
      rw [if_neg hmem]
      exact ⟨rfl, by simpa using hmem⟩
  rcases hrun with ⟨hrun, hmem⟩ | ⟨herr, hmem⟩
  · by_cases hexp : (orderFromConsumeArgs s.owner args tc side).is_expired now
    · rw [if_pos hexp] at hrun
      refine ⟨?_, ?_, ?_, ?_, ?_⟩
      · rw [hrun]
        simp [hexp]
      · intro t call hok
        rw [hrun] at hok
        cases hok
      · intro hcontra
        rw [hmem] at hcontra
        cases hcontra
      · intro _ _
        exact hrun
      · intro _ hcontra _
        exact absurd hexp (by simp [hcontra])
    · rw [if_neg hexp] at hrun
      by_cases htrig : (orderFromConsumeArgs s.owner args tc side).check_trigger
          args.current_price
      · rw [if_pos htrig] at hrun
        obtain ⟨s1, hs1⟩ := remove_order_hash_ok_iff.2 hmem
        rw [hs1] at hrun
        obtain ⟨hsl, hcnt, hownr, hdel, _, _, hexe, hexc, _⟩ :=
          remove_order_hash_spec hwf hinv.2.1 hs1
        refine ⟨?_, ?_, ?_, ?_, ?_⟩
        · rw [hrun]
          simp only [hmem, htrig, true_and, and_true]
          constructor
          · intro _
            simpa using hexp
          · intro _
            exact ⟨_, rfl⟩
        · intro t call hok
          rw [hrun] at hok
          simp only [Except.ok.injEq, Prod.mk.injEq] at hok
          obtain ⟨ht, hcall⟩ := hok
          subst ht
          subst hcall
          rw [hcnt] at hsl
          by_cases hkeep : args.keep_delegated
          · simp only [if_pos hkeep]
            simp [hsl, hcnt, hdel, hownr, hexe, hexc]
          · simp only [if_neg hkeep]
            simp [hsl, hcnt, hownr, hexe, hexc]
        · intro hcontra
          rw [hmem] at hcontra
          cases hcontra
        · intro _ hcontra
          exact absurd htrig (by simp [hcontra] at hexp)
        · intro _ _ hcontra
          rw [hcontra] at htrig
          cases htrig
      · rw [if_neg htrig] at hrun
        refine ⟨?_, ?_, ?_, ?_, ?_⟩
        · rw [hrun]
          simp only [Bool.not_eq_true] at htrig
          simp [htrig]
        · intro t call hok
          rw [hrun] at hok
          cases hok
        · intro hcontra
          rw [hmem] at hcontra
          cases hcontra
        · intro _ hcontra
          exact absurd hexp (by simp [hcontra])
        · intro _ _ _
          exact hrun
  · refine ⟨?_, ?_, ?_, ?_, ?_⟩
    · rw [herr]
      simp [hmem]
    · intro t call hok
      rw [herr] at hok
      cases hok
    · intro _
      exact herr
    · intro hcontra
      rw [hmem] at hcontra
      cases hcontra
    · intro hcontra
      rw [hmem] at hcontra
      cases hcontra

/-- C10. The outcome of `consume_and_execute` is identical for any two
oracle-account data contents: the handler reads only the oracle account key
(for the settlement account list), never its data, so the trigger decision
depends only on the caller-supplied `current_price`. -/
theorem c10_consume_oracle_data_independent (hashFn : List Nat → List Nat)
    (s : ExecutorAuthority) (args : ConsumeAndExecuteArgs) (now : Int)
    (payer drift_state drift_user drift_user_stats drift_authority
      perp_market oracle_key : Bytes32) (d1 d2 : List Nat) :
    consume_and_execute hashFn s
      { payer := payer, drift_state := drift_state, drift_user := drift_user,
        drift_user_stats := drift_user_stats, drift_authority := drift_authority,
        perp_market := perp_market, oracle_key := oracle_key,
        oracle_data := d1 } args now =
    consume_and_execute hashFn s
      { payer := payer, drift_state := drift_state, drift_user := drift_user,
        drift_user_stats := drift_user_stats, drift_authority := drift_authority,
        perp_market := perp_market, oracle_key := oracle_key,
        oracle_data := d2 } args now := rfl

/-- Concrete owner key for witness states. -/
def wOwner : Bytes32 := List.replicate 32 1

/-- Concrete argument record exercising the success path of
`consume_and_execute`. -/
def c2Args : ConsumeAndExecuteArgs :=
  { order_id := 1, market_index := 2, trigger_price := 100,
    trigger_condition := 0, order_side := 0, base_asset_amount := 5,
    reduce_only := false, expiry := 0, feed_id := List.replicate 32 2,
    salt := List.replicate 16 3, current_price := 150, keep_delegated := false }

/-- The order the handler reconstructs from `c2Args`. -/
def c2Order : CompressedGhostOrder := orderFromConsumeArgs wOwner c2Args .Above .Long

/-- Its digest under the identity hash function. -/
def c2Hash : List Nat := c2Order.compute_hash id

/-- An authority holding exactly `c2Hash`. -/
def c2S : ExecutorAuthority :=
  { owner := wOwner, order_count := 1, is_delegated := true, bump := 0,
    order_hashes := c2Hash :: List.replicate 15 zero32, order_hash_count := 1,
    authorized_executors := List.replicate 4 zero32, executor_count := 0 }

/-- Concrete account set for the witness run. -/
def c2Accs : ConsumeAccounts :=
  { payer := List.replicate 32 9, drift_state := List.replicate 32 10,
    drift_user := List.replicate 32 11, drift_user_stats := List.replicate 32 12,
    drift_authority := List.replicate 32 13, perp_market := List.replicate 32 14,
    oracle_key := List.replicate 32 15, oracle_data := [] }

/-- C2 witness: the characterization applied at a concrete registered,
unexpired, triggered order, concluding that the call succeeds. -/
theorem c2_consume_and_execute_spec_witness :
    ∃ r, consume_and_execute id c2S c2Accs c2Args 5 = .ok r :=
  (c2_consume_and_execute_spec id c2S c2Accs c2Args 5 .Above .Long c2Order c2Hash
    (by decide) (by decide) rfl rfl rfl rfl).1.mpr
    ⟨by decide, by decide, by decide⟩

/-- C4. Every registry operation (`add_order_hash`, `remove_order_hash`,
`add_authorized_executor`, `remove_authorized_executor`) preserves the
invariant: no duplicates in the active regions, `order_hash_count ≤ 16`,
`executor_count ≤ 4` (plus the fixed array lengths). -/
theorem c4_registry_invariant_preservation (s : ExecutorAuthority)
    (hsh e : Bytes32) (hwf : s.Wf) (hinv : s.Inv) :
    (∀ t, s.add_order_hash hsh = .ok t → t.Inv ∧ t.Wf) ∧
    (∀ t, s.remove_order_hash hsh = .ok t → t.Inv ∧ t.Wf) ∧
    (∀ t, s.add_authorized_executor e = .ok t → t.Inv ∧ t.Wf) ∧
    (∀ t, s.remove_authorized_executor e = .ok t → t.Inv ∧ t.Wf) :=
  ⟨fun _ ht => inv_add_order_hash hwf hinv ht,
   fun _ ht => inv_remove_order_hash hwf hinv ht,
   fun _ ht => inv_add_authorized_executor hwf hinv ht,
   fun _ ht => inv_remove_authorized_executor hwf hinv ht⟩

/-- The empty authority record (all slots zeroed). -/
def c4S0 : ExecutorAuthority :=
  { owner := wOwner, order_count := 0, is_delegated := false, bump := 0,
    order_hashes := List.replicate 16 zero32, order_hash_count := 0,
    authorized_executors := List.replicate 4 zero32, executor_count := 0 }

/-- A concrete 32-byte hash. -/
def c4H1 : Bytes32 := List.replicate 32 7

/-- The expected result of adding `c4H1` to the empty authority. -/
def c4T0 : ExecutorAuthority :=
  { owner := wOwner, order_count := 1, is_delegated := false, bump := 0,
    order_hashes := c4H1 :: List.replicate 15 zero32, order_hash_count := 1,
    authorized_executors := List.replicate 4 zero32, executor_count := 0 }

/-- C4 witness: the preservation theorem applied to a concrete add. -/
theorem c4_registry_invariant_preservation_witness : c4T0.Inv ∧ c4T0.Wf :=
  (c4_registry_invariant_preservation c4S0 c4H1 c4H1 (by decide) (by decide)).1
    c4T0 (by decide)

/-- C5. `compute_hash` is deterministic and, for any hash function with no
collisions on well-formed serializations (the collision-resistance idealization
of blake3), distinguishes any two distinct well-formed orders — in particular
any two orders differing in exactly one field. -/
theorem c5_compute_hash_field_sensitivity (hashFn : List Nat → List Nat)
    (hcr : ∀ a b : CompressedGhostOrder, a.WellFormed → b.WellFormed →
      hashFn a.serialize = hashFn b.serialize → a.serialize = b.serialize)
    (o1 o2 : CompressedGhostOrder) (w1 : o1.WellFormed) (w2 : o2.WellFormed) :
    (o1 = o2 → o1.compute_hash hashFn = o2.compute_hash hashFn) ∧
    (o1 ≠ o2 → o1.compute_hash hashFn ≠ o2.compute_hash hashFn) := by
  constructor
  · intro he
    rw [he]
  · intro hne heq
    exact hne (CompressedGhostOrder.serialize_inj w1 w2 (hcr o1 o2 w1 w2 heq))

/-- A concrete well-formed order. -/
def c5O1 : CompressedGhostOrder :=
  { owner := wOwner, order_id := 1, market_index := 0, trigger_price := 50000,
    trigger_condition := .Below, order_side := .Short, base_asset_amount := 1000000,
    reduce_only := true, expiry := 0, feed_id := List.replicate 32 0,
    salt := List.replicate 16 1 }

/-- The same order with only the salt changed. -/
def c5O2 : CompressedGhostOrder :=
  { owner := wOwner, order_id := 1, market_index := 0, trigger_price := 50000,
    trigger_condition := .Below, order_side := .Short, base_asset_amount := 1000000,
    reduce_only := true, expiry := 0, feed_id := List.replicate 32 0,
    salt := List.replicate 16 2 }

/-- C5 witness: the sensitivity theorem applied at two concrete orders that
agree on every field except the salt. -/
theorem c5_compute_hash_field_sensitivity_witness :
    c5O1.compute_hash id ≠ c5O2.compute_hash id :=
  (c5_compute_hash_field_sensitivity id (fun _ _ _ _ hsame => hsame)
    c5O1 c5O2 (by decide) (by decide)).2 (by decide)

/-- Four distinct executor keys. -/
def c9K1 : Bytes32 := List.replicate 32 21

def c9K2 : Bytes32 := List.replicate 32 22

def c9K3 : Bytes32 := List.replicate 32 23

def c9K4 : Bytes32 := List.replicate 32 24

/-- A full allow-list (capacity 4) containing `c9K1`. -/
def c9Full : ExecutorAuthority :=
  { owner := wOwner, order_count := 0, is_delegated := false, bump := 0,
    order_hashes := List.replicate 16 zero32, order_hash_count := 0,
    authorized_executors := [c9K1, c9K2, c9K3, c9K4], executor_count := 4 }

/-- C9 counterexample: with the allow-list full, re-adding a key that is
already present is not a no-op — the capacity check runs before the
membership scan, so the call fails with `MaxExecutorsReached`. -/
theorem c9_counterexample :
    c9Full.is_authorized_executor c9K1 = true ∧
    c9Full.add_authorized_executor c9K1 = .error .MaxExecutorsReached := by
  constructor
  · decide
  · decide

/-- C9 amended: below capacity, `add_authorized_executor` is idempotent —
re-adding a key that is already present succeeds and changes nothing. -/
theorem c9_add_executor_idempotent (s : ExecutorAuthority) (e : Bytes32)
    (hmem : s.is_authorized_executor e = true)
    (hcap : s.executor_count < 4) :
    s.add_authorized_executor e = .ok s := by
  unfold ExecutorAuthority.add_authorized_executor
  rw [if_pos hcap,
    if_pos (by simpa [ExecutorAuthority.is_authorized_executor] using hmem)]

/-- An allow-list holding the single key `c9K1`. -/
def c9One : ExecutorAuthority :=
  { owner := wOwner, order_count := 0, is_delegated := false, bump := 0,
    order_hashes := List.replicate 16 zero32, order_hash_count := 0,
    authorized_executors := [c9K1, zero32, zero32, zero32], executor_count := 1 }

/-- C9 witness: re-adding the sole executor is a no-op, so the size stays 1. -/
theorem c9_add_executor_idempotent_witness :
    c9One.add_authorized_executor c9K1 = .ok c9One ∧ c9One.executor_count = 1 :=
  ⟨c9_add_executor_idempotent c9One c9K1 (by decide) (by decide), by decide⟩

/-- Status enum of the ciphertext (`EncryptedOrder`) variant. -/
inductive EncryptedOrderStatus
  | Active
  | Triggered
  | Executed
  | Cancelled
deriving DecidableEq

/-- `EncryptedOrder` from ghost-bridge `state/encrypted_order.rs`. -/
structure EncryptedOrder where
  owner : Bytes32
  order_hash : Bytes32
  executor_authority : Bytes32
  encrypted_data : List Nat
  data_len : Nat
  feed_id : List Nat
  created_at : Int
  triggered_at : Int
  execution_price : Int
  status : EncryptedOrderStatus
  is_delegated : Bool
  bump : Nat
deriving DecidableEq

/-- The owner identity every valid price-feed account must carry
(`PYTH_RECEIVER_ID` in `constants.rs`; the concrete 32 bytes of that
program id are irrelevant to the control flow and abstracted as a fixed
placeholder value). -/
def PYTH_RECEIVER_ID : Bytes32 := List.replicate 32 77

/-- The strict `read_pyth_price` of `trigger_and_execute.rs`: owner check,
minimum length 64, 4-byte magic marker (either accepted encoding), then the
signed price as 8 little-endian bytes at offset 40. -/
def read_pyth_price (feedOwner : Bytes32) (data : List Nat) :
    Except GhostBridgeError Int :=
  if feedOwner ≠ PYTH_RECEIVER_ID then .error .InvalidPriceFeed
  else if data.length < 64 then .error .InvalidPriceFeed
  else if ¬(data.take 4 = [0x50, 0x59, 0x54, 0x48] ∨
      data.take 4 = [0x50, 0x32, 0x55, 0x56]) then .error .InvalidPriceFeed
  else if data.length < 48 then .error .InvalidPriceFeed
  else .ok (leBytesToInt64 ((data.drop 40).take 8))

/-- `TriggerAndExecuteArgs` from `trigger_and_execute.rs`. -/
structure TriggerAndExecuteArgs where
  salt : List Nat
  order_id : Nat
  market_index : Nat
  trigger_price : Int
  trigger_condition : Nat
  order_side : Nat
  base_asset_amount : Nat
  reduce_only : Bool
  expiry : Int
  redelegate_after : Bool
deriving DecidableEq

/-- The order `trigger_and_execute` reconstructs: caller-supplied trade
parameters and salt, with owner and feed id taken from the stored
encrypted order. -/
def orderFromTriggerArgs (owner : Bytes32) (feed_id : List Nat)
    (args : TriggerAndExecuteArgs) (tc : TriggerCondition) (side : OrderSide) :
    CompressedGhostOrder :=
  { owner := owner
    order_id := args.order_id
    market_index := args.market_index
    trigger_price := args.trigger_price
    trigger_condition := tc
    order_side := side
    base_asset_amount := args.base_asset_amount
    reduce_only := args.reduce_only
    expiry := args.expiry
    feed_id := feed_id
    salt := args.salt }

/-- The accounts supplied to `trigger_and_execute`. -/
structure TriggerAccounts where
  payer : Bytes32
  price_feed_owner : Bytes32
  price_feed_data : List Nat
  drift_state : Bytes32
  drift_user : Bytes32
  drift_user_stats : Bytes32
  drift_authority : Bytes32
  perp_market : Bytes32
  oracle_key : Bytes32
deriving DecidableEq

/-- The `trigger_and_execute` handler: status and authorization guards, hash
match against the stored commitment, then either the expired branch (status
becomes Cancelled and the call returns Ok with no settlement — note it does
not touch the hash registry), the no-trigger branch (no mutation), or the
execution branch (hash removed, status Executed, settlement issued). -/
def trigger_and_execute (hashFn : List Nat → List Nat)
    (eo : EncryptedOrder) (ea : ExecutorAuthority) (accs : TriggerAccounts)
    (args : TriggerAndExecuteArgs) (now : Int) :
    Except GhostBridgeError (EncryptedOrder × ExecutorAuthority × Option SettlementCall) :=
  match decodeTriggerCondition args.trigger_condition with
  | .error e => .error e
  | .ok tc =>
  match decodeOrderSide args.order_side with
  | .error e => .error e
  | .ok side =>
  if eo.status ≠ EncryptedOrderStatus.Active then .error .OrderNotActive
  else if ¬(ea.is_authorized_executor accs.payer = true ∨ ea.owner = accs.payer) then
    .error .ExecutorNotAuthorized
  else
    let order := orderFromTriggerArgs eo.owner eo.feed_id args tc side
    let computed := order.compute_hash hashFn
    if computed ≠ eo.order_hash then .error .OrderHashMismatch
    else if order.is_expired now then
      .ok ({ eo with status := EncryptedOrderStatus.Cancelled }, ea, none)
    else
      match read_pyth_price accs.price_feed_owner accs.price_feed_data with
      | .error e => .error e
      | .ok current_price =>
        if ¬ order.check_trigger current_price then .ok (eo, ea, none)
        else if ¬ ea.has_order_hash computed then .error .OrderHashNotFound
        else
          match ea.remove_order_hash computed with
          | .error e => .error e
          | .ok ea1 =>
            let eo1 : EncryptedOrder :=
              { eo with
                status := EncryptedOrderStatus.Executed
                triggered_at := now
                execution_price := current_price }
            let call : SettlementCall :=
              { data := build_drift_place_perp_order args.market_index side
                  args.base_asset_amount args.reduce_only
                accounts := build_drift_short_account_metas accs.drift_state
                  accs.drift_user accs.drift_user_stats accs.drift_authority
                  accs.perp_market accs.oracle_key
                shape := MagicShape.CommitAndUndelegate }
            .ok (eo1, ea1, some call)

/-- The `cancel_encrypted_order` handler (with its account constraints as
explicit guards): owner-only, Active-only, removes the hash from the
registry, then sets the status to Cancelled. -/
def cancel_encrypted_order (eo : EncryptedOrder) (ea : ExecutorAuthority)
    (ownerSigner : Bytes32) :
    Except GhostBridgeError (EncryptedOrder × ExecutorAuthority) :=
  if eo.owner ≠ ownerSigner then .error .Unauthorized
  else if eo.status ≠ EncryptedOrderStatus.Active then .error .InvalidOrderData
  else if ea.owner ≠ ownerSigner then .error .Unauthorized
  else
    match ea.remove_order_hash eo.order_hash with
    | .error e => .error e
    | .ok ea1 => .ok ({ eo with status := EncryptedOrderStatus.Cancelled }, ea1)

/-- Arguments for an expired encrypted order (`expiry = 1`). -/
def c1Args : TriggerAndExecuteArgs :=
  { salt := List.replicate 16 3, order_id := 1, market_index := 2,
    trigger_price := 100, trigger_condition := 0, order_side := 0,
    base_asset_amount := 5, reduce_only := false, expiry := 1,
    redelegate_after := false }

/-- The order those arguments reconstruct. -/
def c1Order : CompressedGhostOrder :=
  orderFromTriggerArgs wOwner (List.replicate 32 2) c1Args .Above .Long

/-- Its digest under the identity hash function. -/
def c1Hash : List Nat := c1Order.compute_hash id

/-- An Active encrypted order committed to `c1Hash`. -/
def c1EO : EncryptedOrder :=
  { owner := wOwner, order_hash := c1Hash, executor_authority := zero32,
    encrypted_data := [], data_len := 0, feed_id := List.replicate 32 2,
    created_at := 0, triggered_at := 0, execution_price := 0,
    status := EncryptedOrderStatus.Active, is_delegated := true, bump := 0 }

/-- The owner's authority still carrying `c1Hash` in its registry. -/
def c1EA : ExecutorAuthority :=
  { owner := wOwner, order_count := 1, is_delegated := true, bump := 0,
    order_hashes := c1Hash :: List.replicate 15 zero32, order_hash_count := 1,
    authorized_executors := List.replicate 4 zero32, executor_count := 0 }

/-- Accounts for the C1 run (the price feed is never read on the expired
branch). -/
def c1Accs : TriggerAccounts :=
  { payer := wOwner, price_feed_owner := PYTH_RECEIVER_ID,
    price_feed_data := [], drift_state := List.replicate 32 10,
    drift_user := List.replicate 32 11, drift_user_stats := List.replicate 32 12,
    drift_authority := List.replicate 32 13, perp_market := List.replicate 32 14,
    oracle_key := List.replicate 32 15 }

/-- C1 failing input, evaluated: at time 2 the order (expiry 1) takes the
expired branch of `trigger_and_execute`, which flips the status to Cancelled
and returns Ok while the order's hash is still present in the owner's
registry — the hash is left dangling, violating the registry invariant the
spec states. -/
theorem c1_expired_branch_leaves_dangling_hash :
    trigger_and_execute id c1EO c1EA c1Accs c1Args 2 =
      .ok ({ c1EO with status := EncryptedOrderStatus.Cancelled }, c1EA, none) ∧
    c1EA.has_order_hash c1Hash = true ∧
    c1EO.order_hash = c1Hash := by
  refine ⟨by decide, by decide, by decide⟩

/-- The seven-state status enum of the commitment-reveal (`GhostOrder`)
variant, from ghost-crank `state/ghost_order.rs`. -/
inductive OrderStatus
  | Pending
  | Active
  | Triggered
  | ReadyToExecute
  | Executed
  | Cancelled
  | Expired
deriving DecidableEq

/-- The error codes raised by the ghost-crank instructions. -/
inductive GhostCrankError
  | NotTriggered
  | AlreadyReady
  | NotReady
  | Expired
  | NonceMismatch
  | CommitmentMismatch
  | DriftUserMismatch
  | OrderNotTriggered
  | OrderNotCancellable
  | NotOwner
  | OrderNotActive
  | ConstraintViolation
deriving DecidableEq

/-- `GhostOrder` from ghost-crank `state/ghost_order.rs`. -/
structure GhostOrder where
  owner : Bytes32
  order_id : Nat
  market_index : Nat
  trigger_price : Int
  trigger_condition : TriggerCondition
  order_side : OrderSide
  base_asset_amount : Nat
  reduce_only : Bool
  status : OrderStatus
  created_at : Int
  triggered_at : Int
  executed_at : Int
  expiry : Int
  feed_id : List Nat
  crank_task_id : Nat
  execution_price : Int
  bump : Nat
  params_commitment : List Nat
  nonce : Nat
  ready_expires_at : Int
  delegate_pda : Bytes32
  delegate_bump : Nat
  drift_user : Bytes32
deriving DecidableEq

/-- `GhostOrder::is_active`. -/
def GhostOrder.is_active (o : GhostOrder) : Bool :=
  o.status = OrderStatus.Active

/-- `GhostOrder::is_expired`. -/
def GhostOrder.is_expired (o : GhostOrder) (current_time : Int) : Bool :=
  o.expiry > 0 && current_time > o.expiry

/-- `GhostOrder::is_ready_expired`. -/
def GhostOrder.is_ready_expired (o : GhostOrder) (current_slot : Int) : Bool :=
  o.ready_expires_at > 0 && current_slot > o.ready_expires_at

/-- `GhostOrder::check_trigger`. -/
def GhostOrder.check_trigger (o : GhostOrder) (current_price : Int) : Bool :=
  match o.trigger_condition with
  | .Above => current_price ≥ o.trigger_price
  | .Below => current_price ≤ o.trigger_price

/-- `CreateGhostOrderArgs` from `create_ghost_order.rs`. -/
structure CreateGhostOrderArgs where
  order_id : Nat
  market_index : Nat
  trigger_price : Int
  trigger_condition : TriggerCondition
  order_side : OrderSide
  base_asset_amount : Nat
  reduce_only : Bool
  expiry_seconds : Int
  feed_id : List Nat
  params_commitment : List Nat
  nonce : Nat
  drift_user : Bytes32
deriving DecidableEq

/-- The `create_ghost_order` handler.  The delegate PDA derivation
(`find_program_address`, an external address function) is supplied as the
`delegate_pda`/`delegate_bump` parameters; `bump` is the account bump. -/
def create_ghost_order (owner : Bytes32) (args : CreateGhostOrderArgs)
    (now : Int) (delegate_pda : Bytes32) (delegate_bump bump : Nat) : GhostOrder :=
  { owner := owner
    order_id := args.order_id
    market_index := args.market_index
    trigger_price := args.trigger_price
    trigger_condition := args.trigger_condition
    order_side := args.order_side
    base_asset_amount := args.base_asset_amount
    reduce_only := args.reduce_only
    status := OrderStatus.Pending
    created_at := now
    triggered_at := 0
    executed_at := 0
    expiry := if args.expiry_seconds > 0 then now + args.expiry_seconds else 0
    feed_id := args.feed_id
    crank_task_id := 0
    execution_price := 0
    bump := bump
    params_commitment := args.params_commitment
    nonce := args.nonce
    ready_expires_at := 0
    delegate_pda := delegate_pda
    delegate_bump := delegate_bump
    drift_user := args.drift_user }

/-- The `activate_handler` of `delegate_order.rs` (owner-only, Pending-only
per its account constraints): flips the status to Active. -/
def activate_order (o : GhostOrder) (signer : Bytes32) :
    Except GhostCrankError GhostOrder :=
  if o.owner ≠ signer then .error .ConstraintViolation
  else if o.status ≠ OrderStatus.Pending then .error .ConstraintViolation
  else .ok { o with status := OrderStatus.Active }

/-- The legacy poll-based price reader of `check_trigger.rs`: returns 0 on
short data instead of failing, otherwise the signed 8-byte little-endian
price at offset 8. -/
def read_pyth_price_legacy (data : List Nat) : Int :=
  if data.length < 32 then 0
  else if data.length < 16 then 0
  else leBytesToInt64 ((data.drop 8).take 8)

/-- The `check_trigger` handler: skip unless Active; expire on a stale
check; otherwise read the feed and flip to Triggered when the trigger
condition holds. -/
def check_trigger_handler (o : GhostOrder) (feedData : List Nat) (now : Int) :
    GhostOrder :=
  if o.is_active = false then o
  else if o.is_expired now then { o with status := OrderStatus.Expired }
  else
    let current_price := read_pyth_price_legacy feedData
    if o.check_trigger current_price then
      { o with
        status := OrderStatus.Triggered
        triggered_at := now
        execution_price := current_price }
    else o

/-- The `schedule_monitoring` handler (Active-only): records the crank task
id; the status is untouched. -/
def schedule_monitoring (o : GhostOrder) (task_id : Nat) :
    Except GhostCrankError GhostOrder :=
  if o.status ≠ OrderStatus.Active then .error .OrderNotActive
  else .ok { o with crank_task_id := task_id }

/-- The `mark_ready` handler: callable only from Triggered; records the
execution price, sets `ready_expires_at = slot + 100`, and flips the status
to ReadyToExecute.  It does not touch `params_commitment`. -/
def mark_ready (o : GhostOrder) (execution_price : Int) (slot : Int) :
    Except GhostCrankError GhostOrder :=
  if o.status ≠ OrderStatus.Triggered then .error .NotTriggered
  else .ok { o with
    status := OrderStatus.ReadyToExecute
    execution_price := execution_price
    ready_expires_at := slot + 100 }

/-- The call data built inside `execute_trigger.rs` (its local
single-byte-discriminator builder). -/
def crank_build_drift_place_perp_order (market_index : Nat) (side : OrderSide)
    (base_asset_amount : Nat) (reduce_only : Bool) : List Nat :=
  23 :: 0 :: side.toByte ::
    (natToLeBytes 2 market_index ++ natToLeBytes 8 base_asset_amount ++
      natToLeBytes 8 0 ++ [boolByte reduce_only, 0, 0])

/-- The `execute_trigger` handler: callable only from Triggered; flips the
status directly to Executed and issues the settlement call data. -/
def execute_trigger (o : GhostOrder) (now : Int) :
    Except GhostCrankError (GhostOrder × List Nat) :=
  if o.status ≠ OrderStatus.Triggered then .error .OrderNotTriggered
  else .ok ({ o with status := OrderStatus.Executed, executed_at := now },
    crank_build_drift_place_perp_order o.market_index o.order_side
      o.base_asset_amount o.reduce_only)

/-- The `cancel_order` handler: owner-only, callable from Pending or
Active, flips the status to Cancelled. -/
def cancel_order (o : GhostOrder) (signer : Bytes32) :
    Except GhostCrankError GhostOrder :=
  if o.owner ≠ signer then .error .NotOwner
  else if o.status = OrderStatus.Pending ∨ o.status = OrderStatus.Active then
    .ok { o with status := OrderStatus.Cancelled }
  else .error .OrderNotCancellable

/-- `OrderParams` from `execute_with_commitment.rs`. -/
structure OrderParams where
  market_index : Nat
  order_side : OrderSide
  base_asset_amount : Nat
  reduce_only : Bool
deriving DecidableEq

/-- The borsh serialization of `OrderParams` (`try_to_vec`): market index
as 2 little-endian bytes, side byte, amount as 8 little-endian bytes,
reduce-only byte. -/
def OrderParams.serialize (p : OrderParams) : List Nat :=
  natToLeBytes 2 p.market_index ++ [p.order_side.toByte] ++
    natToLeBytes 8 p.base_asset_amount ++ [boolByte p.reduce_only]

/-- The call data built inside `execute_with_commitment.rs` (its local
builder with the 8-byte discriminator it carries). -/
def commit_build_drift_place_perp_order (market_index : Nat) (side : OrderSide)
    (base_asset_amount : Nat) (reduce_only : Bool) : List Nat :=
  [0x45, 0xa1, 0x3b, 0x69, 0x28, 0x1c, 0xfa, 0x63] ++ [0] ++ [side.toByte] ++
    natToLeBytes 2 market_index ++ natToLeBytes 8 base_asset_amount ++
    natToLeBytes 8 0 ++ [boolByte reduce_only, 0, 0]

/-- The `execute_with_commitment` handler, parametrized by the external
hash function (solana sha256): ready-state guard, strict slot-before-expiry
guard, nonce equality, commitment equality over
`hash(serialize(params) ++ nonce_le)`, then Executed plus the settlement
sub-call signed by the delegate sub-identity. -/
def execute_with_commitment (hashFn : List Nat → List Nat) (o : GhostOrder)
    (params : OrderParams) (nonce : Nat) (slot : Int) (now : Int) :
    Except GhostCrankError (GhostOrder × List Nat) :=
  if o.status ≠ OrderStatus.ReadyToExecute then .error .NotReady
  else if ¬(slot < o.ready_expires_at) then .error .Expired
  else if nonce ≠ o.nonce then .error .NonceMismatch
  else if hashFn (params.serialize ++ natToLeBytes 8 nonce) ≠ o.params_commitment then
    .error .CommitmentMismatch
  else .ok ({ o with status := OrderStatus.Executed, executed_at := now },
    commit_build_drift_place_perp_order params.market_index params.order_side
      params.base_asset_amount params.reduce_only)

/-- C7. `execute_with_commitment` succeeds exactly when the order is
ReadyToExecute, the slot is still strictly before `ready_expires_at`, the
caller nonce equals the stored nonce, and the recomputed
`hash(params ++ nonce)` equals the stored commitment; each failing guard
aborts with its specific error (NotReady, Expired, NonceMismatch,
CommitmentMismatch); on success the status becomes Executed. -/
theorem c7_execute_with_commitment_spec (hashFn : List Nat → List Nat)
    (o : GhostOrder) (params : OrderParams) (nonce : Nat) (slot now : Int) :
    (execute_with_commitment hashFn o params nonce slot now =
        .ok ({ o with status := OrderStatus.Executed, executed_at := now },
          commit_build_drift_place_perp_order params.market_index
            params.order_side params.base_asset_amount params.reduce_only) ↔
      o.status = OrderStatus.ReadyToExecute ∧ slot < o.ready_expires_at ∧
        nonce = o.nonce ∧
        hashFn (params.serialize ++ natToLeBytes 8 nonce) = o.params_commitment) ∧
    (o.status ≠ OrderStatus.ReadyToExecute →
      execute_with_commitment hashFn o params nonce slot now = .error .NotReady) ∧
    (o.status = OrderStatus.ReadyToExecute → ¬(slot < o.ready_expires_at) →
      execute_with_commitment hashFn o params nonce slot now = .error .Expired) ∧
    (o.status = OrderStatus.ReadyToExecute → slot < o.ready_expires_at →
      nonce ≠ o.nonce →
      execute_with_commitment hashFn o params nonce slot now = .error .NonceMismatch) ∧
    (o.status = OrderStatus.ReadyToExecute → slot < o.ready_expires_at →
      nonce = o.nonce →
      hashFn (params.serialize ++ natToLeBytes 8 nonce) ≠ o.params_commitment →
      execute_with_commitment hashFn o params nonce slot now = .error .CommitmentMismatch) := by
  refine ⟨⟨?_, ?_⟩, ?_, ?_, ?_, ?_⟩
  · intro hok
    by_cases h1 : o.status = OrderStatus.ReadyToExecute
    · by_cases h2 : slot < o.ready_expires_at
      · by_cases h3 : nonce = o.nonce
        · subst h3
          by_cases h4 : hashFn (params.serialize ++ natToLeBytes 8 o.nonce) =
              o.params_commitment
          · exact ⟨h1, h2, rfl, h4⟩
          · simp [execute_with_commitment, h1, h2, h4] at hok
        · simp [execute_with_commitment, h1, h2, h3] at hok
      · simp [execute_with_commitment, h1, h2] at hok
    · simp [execute_with_commitment, h1] at hok
  · rintro ⟨h1, h2, h3, h4⟩
    subst h3
    simp [execute_with_commitment, h1, h2, h4]
  · intro h1
    simp [execute_with_commitment, h1]
  · intro h1 h2
    simp [execute_with_commitment, h1, h2]
  · intro h1 h2 h3
    simp [execute_with_commitment, h1, h2, h3]
  · intro h1 h2 h3 h4
    subst h3
    simp [execute_with_commitment, h1, h2, h4]

/-- A base ghost order shared by the concrete ghost-crank fixtures. -/
def gBase : GhostOrder :=
  { owner := wOwner, order_id := 1, market_index := 3, trigger_price := 100,
    trigger_condition := .Above, order_side := .Long, base_asset_amount := 500,
    reduce_only := false, status := OrderStatus.Pending, created_at := 0,
    triggered_at := 0, executed_at := 0, expiry := 0,
    feed_id := List.replicate 32 2, crank_task_id := 0, execution_price := 0,
    bump := 0, params_commitment := [1], nonce := 5, ready_expires_at := 0,
    delegate_pda := zero32, delegate_bump := 0, drift_user := zero32 }

/-- Concrete order parameters matching `gBase`. -/
def c7P : OrderParams :=
  { market_index := 3, order_side := .Long, base_asset_amount := 500,
    reduce_only := false }

/-- A ReadyToExecute order armed at slot 0 (`ready_expires_at = 100`) whose
stored commitment is the identity-hash of `c7P` and nonce 9. -/
def c7O : GhostOrder :=
  { gBase with
    status := OrderStatus.ReadyToExecute
    nonce := 9
    ready_expires_at := 100
    params_commitment := id (c7P.serialize ++ natToLeBytes 8 9) }

/-- C7 witness: with expiry recorded as slot 100, execution at slot 50 with
the correct nonce and matching commitment succeeds (status Executed), and
the same call at slot 101 fails with Expired. -/
theorem c7_execute_with_commitment_spec_witness :
    execute_with_commitment id c7O c7P 9 50 777 =
      .ok ({ c7O with status := OrderStatus.Executed, executed_at := 777 },
        commit_build_drift_place_perp_order c7P.market_index c7P.order_side
          c7P.base_asset_amount c7P.reduce_only) ∧
    execute_with_commitment id c7O c7P 9 101 777 = .error .Expired :=
  ⟨(c7_execute_with_commitment_spec id c7O c7P 9 50 777).1.mpr
      ⟨rfl, by decide, rfl, rfl⟩,
   (c7_execute_with_commitment_spec id c7O c7P 9 101 777).2.2.1 rfl (by decide)⟩

/-- Two Triggered orders identical in every field — including all trade
parameters and the nonce — except the stored `params_commitment`. -/
def c6O1 : GhostOrder := { gBase with status := OrderStatus.Triggered }

/-- Same as `c6O1` with only the stored commitment changed. -/
def c6O2 : GhostOrder :=
  { gBase with status := OrderStatus.Triggered, params_commitment := [2] }

/-- C6 counterexample: `mark_ready` does not write
`params_commitment = hash(params ++ nonce)` — after marking two orders that
agree on every commitment-relevant input (parameters and nonce), the stored
commitments still differ, which is impossible if `mark_ready` wrote a value
computed from those inputs. -/
theorem c6_counterexample :
    (mark_ready c6O1 7 3).map GhostOrder.params_commitment = .ok [1] ∧
    (mark_ready c6O2 7 3).map GhostOrder.params_commitment = .ok [2] ∧
    c6O1.nonce = c6O2.nonce ∧
    c6O1.market_index = c6O2.market_index ∧
    c6O1.order_side = c6O2.order_side ∧
    c6O1.base_asset_amount = c6O2.base_asset_amount ∧
    c6O1.reduce_only = c6O2.reduce_only := by
  refine ⟨by decide, by decide, by decide, by decide, by decide, by decide, by decide⟩

/-- C6 amended: `mark_ready` succeeds only from Triggered (NotTriggered
otherwise); on success it sets the status to ReadyToExecute, records the
execution price and `ready_expires_at = slot + 100`, and leaves
`params_commitment` untouched — the commitment is recorded at order
creation (`create_ghost_order` stores `args.params_commitment`). -/
theorem c6_mark_ready_spec (o : GhostOrder) (execution_price slot : Int) :
    (o.status ≠ OrderStatus.Triggered →
      mark_ready o execution_price slot = .error .NotTriggered) ∧
    (o.status = OrderStatus.Triggered →
      mark_ready o execution_price slot = .ok { o with
        status := OrderStatus.ReadyToExecute
        execution_price := execution_price
        ready_expires_at := slot + 100 }) ∧
    (∀ t, mark_ready o execution_price slot = .ok t →
      t.params_commitment = o.params_commitment ∧
      t.status = OrderStatus.ReadyToExecute ∧
      t.ready_expires_at = slot + 100 ∧
      t.execution_price = execution_price) ∧
    (∀ owner args now pda db b,
      (create_ghost_order owner args now pda db b).params_commitment =
        args.params_commitment) := by
  refine ⟨?_, ?_, ?_, fun _ _ _ _ _ _ => rfl⟩
  · intro h1
    simp [mark_ready, h1]
  · intro h1
    simp [mark_ready, h1]
  · intro t ht
    unfold mark_ready at ht
    split_ifs at ht with h1
    simp only [Except.ok.injEq] at ht
    subst ht
    exact ⟨rfl, rfl, rfl, rfl⟩

/-- C6 witness: the amended characterization applied at a concrete
Triggered order at slot 3. -/
theorem c6_mark_ready_spec_witness :
    mark_ready c6O1 7 3 = .ok { c6O1 with
      status := OrderStatus.ReadyToExecute
      execution_price := 7
      ready_expires_at := 3 + 100 } :=
  (c6_mark_ready_spec c6O1 7 3).2.1 rfl

/-- The concrete Triggered order used against C3. -/
def c3O : GhostOrder := { gBase with status := OrderStatus.Triggered }

/-- C3 counterexample: `execute_trigger` moves an order from Triggered
directly to Executed, so Executed is reachable from a status other than
ReadyToExecute, contrary to the claim. -/
theorem c3_counterexample :
    c3O.status = OrderStatus.Triggered ∧
    (execute_trigger c3O 7).map (fun r => r.1.status) =
      .ok OrderStatus.Executed := by
  refine ⟨by decide, by decide⟩

/-- C3 amended: the `GhostOrder` status machine, operation by operation.
Creation starts at Pending; `activate` is Pending → Active; `check_trigger`
either leaves the status unchanged or, from Active, moves to Expired (stale
check) or Triggered; `schedule_monitoring` never changes the status;
`mark_ready` is Triggered → ReadyToExecute; `execute_trigger` is
Triggered → Executed (the direct path the original claim missed);
`execute_with_commitment` is ReadyToExecute → Executed; `cancel` is
Pending/Active → Cancelled.  Executed, Cancelled and Expired are terminal:
every arm requires a non-terminal source status, so no successful
status-changing operation leaves them. -/
theorem c3_status_machine (o : GhostOrder) (signer : Bytes32)
    (feedData : List Nat) (now slot price : Int) (task_id nonce : Nat)
    (params : OrderParams) (hashFn : List Nat → List Nat)
    (owner : Bytes32) (cargs : CreateGhostOrderArgs) (pda : Bytes32) (db b : Nat) :
    (create_ghost_order owner cargs now pda db b).status = OrderStatus.Pending ∧
    (∀ t, activate_order o signer = .ok t →
      o.status = OrderStatus.Pending ∧ t.status = OrderStatus.Active) ∧
    ((check_trigger_handler o feedData now).status = o.status ∨
      (o.status = OrderStatus.Active ∧
        ((check_trigger_handler o feedData now).status = OrderStatus.Expired ∨
         (check_trigger_handler o feedData now).status = OrderStatus.Triggered))) ∧
    (∀ t, schedule_monitoring o task_id = .ok t →
      t.status = o.status ∧ o.status = OrderStatus.Active) ∧
    (∀ t, mark_ready o price slot = .ok t →
      o.status = OrderStatus.Triggered ∧ t.status = OrderStatus.ReadyToExecute) ∧
    (∀ t d, execute_trigger o now = .ok (t, d) →
      o.status = OrderStatus.Triggered ∧ t.status = OrderStatus.Executed) ∧
    (∀ t d, execute_with_commitment hashFn o params nonce slot now = .ok (t, d) →
      o.status = OrderStatus.ReadyToExecute ∧ t.status = OrderStatus.Executed) ∧
    (∀ t, cancel_order o signer = .ok t →
      (o.status = OrderStatus.Pending ∨ o.status = OrderStatus.Active) ∧
      t.status = OrderStatus.Cancelled) := by
  refine ⟨rfl, ?_, ?_, ?_, ?_, ?_, ?_, ?_⟩
  · intro t ht
    unfold activate_order at ht
    split_ifs at ht with h1 h2
    simp only [Except.ok.injEq] at ht
    subst ht
    exact ⟨not_not.mp h2, rfl⟩
  · unfold check_trigger_handler
    by_cases h1 : o.is_active = false
    · left
      simp [h1]
    · have hact : o.status = OrderStatus.Active := by
        simpa [GhostOrder.is_active] using h1
      by_cases h2 : o.is_expired now
      · right
        refine ⟨hact, Or.inl ?_⟩
        simp [h1, h2]
      · by_cases h3 : o.check_trigger (read_pyth_price_legacy feedData)
        · right
          refine ⟨hact, Or.inr ?_⟩
          simp [h1, h2, h3]
        · left
          simp [h1, h2, h3]
  · intro t ht
    unfold schedule_monitoring at ht
    split_ifs at ht with h1
    simp only [Except.ok.injEq] at ht
    subst ht
    exact ⟨rfl, not_not.mp h1⟩
  · intro t ht
    unfold mark_ready at ht
    split_ifs at ht with h1
    simp only [Except.ok.injEq] at ht
    subst ht
    exact ⟨not_not.mp h1, rfl⟩
  · intro t d ht
    unfold execute_trigger at ht
    split_ifs at ht with h1
    simp only [Except.ok.injEq, Prod.mk.injEq] at ht
    obtain ⟨ht, _⟩ := ht
    subst ht
    exact ⟨not_not.mp h1, rfl⟩
  · intro t d ht
    unfold execute_with_commitment at ht
    split_ifs at ht with h1 h2 h3 h4
    simp only [Except.ok.injEq, Prod.mk.injEq] at ht
    obtain ⟨ht, _⟩ := ht
    subst ht
    exact ⟨not_not.mp h1, rfl⟩
  · intro t ht
    unfold cancel_order at ht
    split_ifs at ht with h1 h2
    simp only [Except.ok.injEq] at ht
    subst ht
    exact ⟨h2, rfl⟩

/-- C3 witness: the amended machine applied to a concrete Triggered order
on the direct execute path. -/
theorem c3_status_machine_witness :
    c3O.status = OrderStatus.Triggered ∧
    ({ c3O with status := OrderStatus.Executed, executed_at := 7 } :
      GhostOrder).status = OrderStatus.Executed :=
  (c3_status_machine c3O wOwner [] 7 0 0 0 0 c7P id wOwner
    { order_id := 1, market_index := 3, trigger_price := 100,
      trigger_condition := .Above, order_side := .Long,
      base_asset_amount := 500, reduce_only := false, expiry_seconds := 0,
      feed_id := List.replicate 32 2, params_commitment := [1], nonce := 5,
      drift_user := zero32 } zero32 0 0).2.2.2.2.2.1
    { c3O with status := OrderStatus.Executed, executed_at := 7 }
    (crank_build_drift_place_perp_order 3 .Long 500 false) (by decide)

end GhostSol
